import Mathlib

/-!
Verification of the Logseq-to-Obsidian migration scripts.

The development shallowly embeds the two Python source files:
the two-phase migrator (scanner building an identifier database,
rewriter replacing block references and converting leading properties
to a fenced YAML header) and the alias normalizer (splitting
comma-joined alias list items in a file header).

Lines are modelled as lists of characters with the trailing newline
stripped; every per-line operation in the source strips the newline
before inspecting the line, and the rendered output lines are compared
without their terminating newline characters.
-/

namespace L2O

/-- A source line, without its trailing newline. -/
abbrev Line := List Char

/-- Python whitespace test used by str.strip: space, tab, newline,
carriage return, vertical tab, form feed. -/
def isPySpace (c : Char) : Bool :=
  c = ' ' || c = '\t' || c = '\n' || c = '\r' || c = Char.ofNat 11 || c = Char.ofNat 12

/-- Model of Python str.strip: drop leading and trailing whitespace. -/
def pyStrip (l : Line) : Line :=
  ((l.dropWhile isPySpace).reverse.dropWhile isPySpace).reverse

/-- Model of the Python substring test pat in s. -/
def containsSub (pat : Line) : Line → Bool
  | [] => pat.isEmpty
  | c :: cs => pat.isPrefixOf (c :: cs) || containsSub pat cs

/-- Split at the first occurrence of sep, as in str.split(sep, 1):
returns the part before and the part after, or none when sep is absent. -/
def splitFirst (sep : Line) : Line → Option (Line × Line)
  | [] => none
  | c :: cs =>
    if sep.isPrefixOf (c :: cs) then some ([], (c :: cs).drop sep.length)
    else
      match splitFirst sep cs with
      | some (pre, post) => some (c :: pre, post)
      | none => none

/-- Fuel-driven worker for pySplitOn. The fuel only needs to exceed the
number of scanning steps, which is bounded by the input length. -/
def pySplitOnAux (sep : Line) : Nat → Line → List Line
  | _, [] => [[]]
  | 0, l => [l]
  | Nat.succ f, c :: cs =>
    if !sep.isEmpty && sep.isPrefixOf (c :: cs) then
      [] :: pySplitOnAux sep f (cs.drop (sep.length - 1))
    else
      match pySplitOnAux sep f cs with
      | [] => [[c]]
      | p :: ps => (c :: p) :: ps

/-- Model of Python str.split(sep): cut at every non-overlapping
occurrence of sep, scanning left to right. -/
def pySplitOn (sep : Line) (l : Line) : List Line :=
  pySplitOnAux sep l.length l

/-- Split a list at every character satisfying p, as re.split does with a
single-character class: n separators yield n+1 (possibly empty) pieces. -/
def splitOnPred (p : Char → Bool) : Line → List Line
  | [] => [[]]
  | c :: cs =>
    if p c then [] :: splitOnPred p cs
    else
      match splitOnPred p cs with
      | [] => [[c]]
      | q :: qs => (c :: q) :: qs

/-- Fuel-driven worker for pyReplace. -/
def pyReplaceAux (pat rep : Line) : Nat → Line → Line
  | _, [] => []
  | 0, l => l
  | Nat.succ f, c :: cs =>
    if !pat.isEmpty && pat.isPrefixOf (c :: cs) then
      rep ++ pyReplaceAux pat rep f (cs.drop (pat.length - 1))
    else
      c :: pyReplaceAux pat rep f cs

/-- Model of Python str.replace: replace every non-overlapping occurrence
of pat by rep, scanning left to right. -/
def pyReplace (pat rep l : Line) : Line :=
  pyReplaceAux pat rep l.length l

/-- Model of sanitize_text_for_linking: the chain of str.replace calls in
source order: double asterisk and asterisk to a star glyph, colon to
fullwidth colon, question mark to fullwidth question mark, angle brackets
to angle glyphs, double quote to a directional quote, vertical bar to
fullwidth bar, backslash to an interpunct, slash to hyphen. -/
def sanitize_text_for_linking (t : Line) : Line :=
  pyReplace ['/'] ['-']
    (pyReplace ['\\'] ['、']
      (pyReplace ['|'] ['｜']
        (pyReplace ['"'] ['“']
          (pyReplace ['>'] ['〉']
            (pyReplace ['<'] ['〈']
              (pyReplace ['?'] ['？']
                (pyReplace [':'] ['：']
                  (pyReplace ['*'] ['★']
                    (pyReplace ['*', '*'] ['★'] t)))))))))

/-- Character class of the identifier patterns: lowercase hex digit,
decimal digit, or hyphen. -/
def isHexOrDash (c : Char) : Bool :=
  (decide ('a' ≤ c) && decide (c ≤ 'f')) || (decide ('0' ≤ c) && decide (c ≤ '9')) || c = '-'

/-- The embedded-reference token built from a 36-character identifier. -/
def refTok (id : Line) : Line :=
  '(' :: '(' :: id ++ [')', ')']

/-- Try to match BLOCK_REF_PATTERN at the start of the list: two opening
parentheses, exactly 36 class characters (the captured identifier), two
closing parentheses. Returns the identifier and the remainder. -/
def matchRef : Line → Option (Line × Line)
  | '(' :: '(' :: rest =>
    let idPart := rest.take 36
    if idPart.length = 36 && idPart.all isHexOrDash then
      match rest.drop 36 with
      | ')' :: ')' :: rest2 => some (idPart, rest2)
      | _ => none
    else none
  | _ => none

/-- Model of BLOCK_REF_PATTERN.fullmatch: the whole string is one token. -/
def fullmatchRef (l : Line) : Bool :=
  match matchRef l with
  | some (_, rest) => rest.isEmpty
  | none => false

/-- The identifier database: identifier to rendered link text, last
writer wins. -/
abbrev DB := List (Line × Line)

/-- Dictionary lookup. -/
def dbGet : DB → Line → Option Line
  | [], _ => none
  | (k, v) :: rest, key => if k = key then some v else dbGet rest key

/-- Dictionary assignment: replace the value in place if the key exists,
else append, matching insertion-ordered Python dict semantics. -/
def upsert (k v : Line) : DB → DB
  | [] => [(k, v)]
  | (k0, v0) :: rest => if k0 = k then (k, v) :: rest else (k0, v0) :: upsert k v rest

/-- Fuel-driven worker for substRefs, the model of
BLOCK_REF_PATTERN.sub with the replacement callback of the rewriter:
a matched token with identifier id becomes two opening brackets, then the
database text when present else the whole matched token, then two closing
brackets. -/
def substRefsAux (db : DB) : Nat → Line → Line
  | _, [] => []
  | 0, l => l
  | Nat.succ f, c :: cs =>
    match matchRef (c :: cs) with
    | some (id, rest) =>
      '[' :: '[' :: ((dbGet db id).getD (refTok id)) ++ ']' :: ']' :: substRefsAux db f rest
    | none => c :: substRefsAux db f cs

/-- Model of the reference substitution applied to one line. -/
def substRefs (db : DB) (l : Line) : Line :=
  substRefsAux db l.length l

/-- Try to match UUID_PATTERN at the start of the list: the four
characters of the id marker, any run of whitespace, then exactly 36
class characters (the captured identifier). -/
def tryUuidAt : Line → Option Line
  | 'i' :: 'd' :: ':' :: ':' :: rest =>
    let r := rest.dropWhile isPySpace
    let idc := r.take 36
    if idc.length = 36 && idc.all isHexOrDash then some idc else none
  | _ => none

/-- Model of UUID_PATTERN.search: try the pattern at every start
position, left to right, returning the first captured identifier. -/
def uuidSearch : Line → Option Line
  | [] => none
  | c :: cs =>
    match tryUuidAt (c :: cs) with
    | some id => some id
    | none => uuidSearch cs

def sHlPage : Line := ['h', 'l', '-', 'p', 'a', 'g', 'e', ':', ':']
def sLsType : Line := ['l', 's', '-', 't', 'y', 'p', 'e', ':', ':']
def sHlColor : Line := ['h', 'l', '-', 'c', 'o', 'l', 'o', 'r', ':', ':']

/-- The page value captured from a stripped hl-page line: the second
field of the double-colon split, stripped. -/
def pageValOf (prev : Line) : Line :=
  pyStrip ((pySplitOn [':', ':'] prev).getD 1 [])

/-- The scanner's backward walk from the line below index j (first
argument is the count of lines still to examine, so index j is examined
when the first argument is j+1). A stripped line starting with the
hl-page marker records its value and continues; one starting with the
ls-type or hl-color marker is passed over; any other line (blank lines
included) is returned as the content line together with the page value
captured so far; none when every preceding line was passed over. -/
def walkBack (lines : List Line) : Nat → Option Line → Option (Nat × Option Line)
  | 0, _ => none
  | Nat.succ j, page =>
    let prev := pyStrip (lines.getD j [])
    if sHlPage.isPrefixOf prev then walkBack lines j (some (pageValOf prev))
    else if sLsType.isPrefixOf prev || sHlColor.isPrefixOf prev then walkBack lines j page
    else some (j, page)

/-- Phase-one handling of the line at index i: when the line declares an
identifier, walk backward for the content line, skip degenerate content
(no content line, or content that is itself a bare reference token), else
strip a leading list marker, append the page suffix when a page value was
captured and nonempty, sanitize, and store. -/
def scanLine (db : DB) (lines : List Line) (i : Nat) : DB :=
  match uuidSearch (lines.getD i []) with
  | none => db
  | some uuid =>
    match walkBack lines i none with
    | none => db
    | some (j, page) =>
      let content0 := pyStrip (lines.getD j [])
      let temp := if ['-', ' '].isPrefixOf content0 then pyStrip (content0.drop 2) else content0
      if fullmatchRef temp then db
      else
        let ct := if ['-', ' '].isPrefixOf content0 then pyStrip (content0.drop 2) else content0
        let pn := page.getD []
        let finalC := if pn.isEmpty then ct else ct ++ [' ', 'p', 'a', 'g', 'e', '-'] ++ pn
        upsert uuid (sanitize_text_for_linking finalC) db

/-- Phase-one scan of one file: fold scanLine over all line indices. -/
def scanFileDB (db : DB) (lines : List Line) : DB :=
  (List.range lines.length).foldl (fun d i => scanLine d lines i) db

/-- Dictionary assignment for the property mapping of the header
converter, with the same insertion-ordered semantics as upsert. -/
def upsertProp (k : Line) (v : List Line) : List (Line × List Line) → List (Line × List Line)
  | [] => [(k, v)]
  | (k0, v0) :: rest => if k0 = k then (k, v) :: rest else (k0, v0) :: upsertProp k v rest

def sepCC : Line := [':', ':']
def sDashSpace : Line := ['-', ' ']
def sAlias : Line := ['a', 'l', 'i', 'a', 's']
def sAliases : Line := ['a', 'l', 'i', 'a', 's', 'e', 's']

/-- Parse one stripped property line: split at the first double colon,
trim the key (skipping the line when the key is empty), comma-split the
trimmed value into trimmed nonempty tokens, rename the alias key to its
plural, store with last-value-wins, and record the consumed line count
as i+1. -/
def parsePropLine (ls : Line) (props : List (Line × List Line)) (i count : Nat) :
    (List (Line × List Line)) × Nat :=
  match splitFirst sepCC ls with
  | some (k0, v0) =>
    let key := pyStrip k0
    if key.isEmpty then (props, count)
    else
      let valueStr := pyStrip v0
      let values := ((pySplitOn [','] valueStr).map pyStrip).filter (fun v => !v.isEmpty)
      let key2 := if key = sAlias then sAliases else key
      (upsertProp key2 values props, i + 1)
  | none => (props, count)

/-- Detection loop of the header converter, carrying the previous
original line, the index, the open flag, the accumulated properties and
the consumed-line count. Returns none for the early unchanged return
(line 0 is not a property line) and the accumulated state otherwise. -/
def convLoop : List Line → Line → Nat → Bool → List (Line × List Line) → Nat →
    Option ((List (Line × List Line)) × Nat)
  | [], _, _, _, props, count => some (props, count)
  | l :: rest, prev, i, inBlock, props, count =>
    let ls := pyStrip l
    if containsSub sepCC ls && !(sDashSpace.isPrefixOf ls) then
      if (i = 0) || inBlock || (pyStrip prev).isEmpty then
        let pc := parsePropLine ls props i count
        convLoop rest l (i + 1) true pc.1 pc.2
      else some (props, count)
    else if ls.isEmpty && inBlock then
      convLoop rest l (i + 1) inBlock props count
    else if inBlock then some (props, count)
    else none

def sFence : Line := ['-', '-', '-']

/-- Render the structured header: fence line, then per key the key line
followed by one indented double-quoted item per value, then the fence. -/
def renderYaml (props : List (Line × List Line)) : List Line :=
  sFence ::
    (props.map (fun kv =>
      (kv.1 ++ [':']) :: kv.2.map (fun v => [' ', ' ', '-', ' ', '"'] ++ v ++ ['"']))).flatten
    ++ [sFence]

/-- Model of convert_logseq_properties_to_yaml: detect the leading
property block, return the input unchanged with count zero when there is
none, else the rendered header followed by the lines after the consumed
property lines, with the header length. -/
def convert_logseq_properties_to_yaml (lines : List Line) : List Line × Nat :=
  match convLoop lines [] 0 false [] 0 with
  | none => (lines, 0)
  | some (props, count) =>
    if props.isEmpty then (lines, 0)
    else
      let yaml := renderYaml props
      (yaml ++ lines.drop count, yaml.length)

/-- The leading list-marker match of the rewriter: a greedy whitespace
run, a hyphen, a greedy whitespace run; empty when there is no hyphen
after the leading whitespace. -/
def listDashPre (l : Line) : Line :=
  match l.dropWhile isPySpace with
  | '-' :: rest => l.takeWhile isPySpace ++ '-' :: rest.takeWhile isPySpace
  | _ => []

/-- A line whose stripped form starts with one of the three sidecar
markers recognized by the rewriter's deletion scan. -/
def isSidecarDel (l : Line) : Bool :=
  let p := pyStrip l
  sLsType.isPrefixOf p || sHlPage.isPrefixOf p || sHlColor.isPrefixOf p

/-- Collect the indices of the run of sidecar lines starting at index j
(first argument is fuel, at least the number of remaining indices). -/
def collectSidecarsAux (lp : List Line) : Nat → Nat → List Nat
  | 0, _ => []
  | Nat.succ f, j =>
    if j < lp.length then
      if isSidecarDel (lp.getD j []) then j :: collectSidecarsAux lp f (j + 1) else []
    else []

/-- The rewriter's per-file loop: at index i substitute references in the
line; when the next line declares an identifier present in the database,
replace the current line by its list-marker prefix followed by the
bracketed database text, and mark the declaration line and the following
run of sidecar lines for deletion. The fuel is the number of remaining
indices. -/
def rewriteLoopAux (db : DB) : Nat → Nat → List Line → List Nat → List Line × List Nat
  | 0, _, lp, dels => (lp, dels)
  | Nat.succ f, i, lp, dels =>
    if i < lp.length then
      let lp1 := lp.set i (substRefs db (lp.getD i []))
      if i + 1 < lp.length then
        match uuidSearch (lp1.getD (i + 1) []) with
        | some uuid =>
          match dbGet db uuid with
          | some txt =>
            let cur := lp1.getD i []
            let lp2 := lp1.set i (listDashPre cur ++ '[' :: '[' :: txt ++ [']', ']'])
            let dels2 := collectSidecarsAux lp2 lp2.length (i + 2)
            rewriteLoopAux db f (i + 1) lp2 ((i + 1) :: dels2 ++ dels)
          | none => rewriteLoopAux db f (i + 1) lp1 dels
        | none => rewriteLoopAux db f (i + 1) lp1 dels
      else rewriteLoopAux db f (i + 1) lp1 dels
    else (lp, dels)

/-- The rewriter's whole-file transformation: header conversion, the
line-wise loop, then removal of every line marked for deletion. -/
def rewriteContent (db : DB) (lines : List Line) : List Line :=
  let conv := (convert_logseq_properties_to_yaml lines).1
  let r := rewriteLoopAux db conv.length 0 conv []
  (r.1.enum.filter (fun p => !(r.2.contains p.1))).map Prod.snd

/-- A vault file as the phase loops see it: its current content, and
whether reading it raises an exception (the caught, logged, per-file
failure of the source's try blocks). -/
structure MFile where
  content : List Line
  readFails : Bool
deriving DecidableEq

/-- Phase-one handling of one file: a read failure is caught and
contributes nothing; otherwise the file's lines are scanned. -/
def scanMFile (db : DB) (f : MFile) : DB :=
  if f.readFails then db else scanFileDB db f.content

/-- Phase one from an initial database state. -/
def phaseOneAux (db : DB) (files : List MFile) : DB :=
  files.foldl scanMFile db

/-- Model of phase_one_build_db: scan every file, starting from the
empty database. -/
def phase_one_build_db (files : List MFile) : DB :=
  phaseOneAux [] files

/-- Phase-two handling of one file: a read failure is caught and leaves
the file unchanged; otherwise the file is read, transformed, and written
back in one unit. -/
def phaseTwoFile (db : DB) (f : MFile) : MFile :=
  if f.readFails then f else { content := rewriteContent db f.content, readFails := f.readFails }

/-- Model of phase_two_process_and_write: transform every file. -/
def phase_two_process_and_write (db : DB) (files : List MFile) : List MFile :=
  files.map (phaseTwoFile db)

/-- A full run: build the database, then rewrite every file. -/
def migrate (files : List MFile) : List MFile :=
  phase_two_process_and_write (phase_one_build_db files) files

/-- The separator class of the alias normalizer's re.split call:
fullwidth comma, vertical bar (a literal inside the class), comma. -/
def isAliasSep (c : Char) : Bool :=
  c = '，' || c = '|' || c = ','

/-- The normalizer's split of one alias item: cut at every separator,
trim the pieces, drop the empty ones. -/
def splitAliasItem (it : Line) : List Line :=
  ((splitOnPred isAliasSep it).map pyStrip).filter (fun p => !p.isEmpty)

/-- The normalizer's trigger test: the item contains a fullwidth or
ASCII comma. -/
def itemNeedsSplit (it : Line) : Bool :=
  containsSub ['，'] it || containsSub [','] it

/-- The normalizer's loop over the alias list: items containing a comma
are split (setting the modified flag), others pass through. -/
def processAliases : List Line → List Line × Bool
  | [] => ([], false)
  | it :: rest =>
    let r := processAliases rest
    if itemNeedsSplit it then (splitAliasItem it ++ r.1, true)
    else (it :: r.1, r.2)

/-- Model of process_markdown_file at the level of its aliases metadata:
none in means the file has no list-valued aliases field; some out means
the file was rewritten with the new list, none out that it was left
byte-for-byte unmodified. -/
def processMarkdownAliases : Option (List Line) → Option (List Line)
  | none => none
  | some items =>
    let r := processAliases items
    if r.2 then some r.1 else none

/-- The aliases metadata of a file after one normalizer run. -/
def aliasFileAfter (md : Option (List Line)) : Option (List Line) :=
  match processMarkdownAliases md with
  | some n => some n
  | none => md

/-- Generic fold over the substitution pairs, used to speak about
applying the sanitizer's substitutions in other orders. -/
def applySubs (subs : List (Line × Line)) (s : Line) : Line :=
  subs.foldl (fun acc pr => pyReplace pr.1 pr.2 acc) s

/-- The sanitizer's substitutions in source order. -/
def subsListSrc : List (Line × Line) :=
  [(['*', '*'], ['★']), (['*'], ['★']), ([':'], ['：']), (['?'], ['？']),
   (['<'], ['〈']), (['>'], ['〉']), (['"'], ['“']), (['|'], ['｜']),
   (['\\'], ['、']), (['/'], ['-'])]

/-- The sanitizer's substitutions with the asterisk rules swapped. -/
def subsListSwap : List (Line × Line) :=
  [(['*'], ['★']), (['*', '*'], ['★']), ([':'], ['：']), (['?'], ['？']),
   (['<'], ['〈']), (['>'], ['〉']), (['"'], ['“']), (['|'], ['｜']),
   (['\\'], ['、']), (['/'], ['-'])]

/-- The eight single-character substitutions following the asterisk
rules, in source order. -/
def subsListSingles : List (Line × Line) :=
  [([':'], ['：']), (['?'], ['？']), (['<'], ['〈']), (['>'], ['〉']),
   (['"'], ['“']), (['|'], ['｜']), (['\\'], ['、']), (['/'], ['-'])]

section ConcreteInputs

def fileC1 : MFile :=
  { content := ["((22222222-2222-2222-2222-222222222222))".data], readFails := false }

def uuidC2 : Line := "11111111-1111-1111-1111-111111111111".data

def fileDefC2 : MFile :=
  { content := ["- Some fact".data,
                "id:: 11111111-1111-1111-1111-111111111111".data,
                "hl-page:: 5".data],
    readFails := false }

def fileRefC2 : MFile :=
  { content := ["((11111111-1111-1111-1111-111111111111))".data], readFails := false }

def uuidC3 : Line := "33333333-3333-3333-3333-333333333333".data

def fileC3 : MFile :=
  { content := ["- Fact".data, [],
                "id:: 33333333-3333-3333-3333-333333333333".data],
    readFails := false }

end ConcreteInputs

/-- One alias list item as the amended C7 describes it: split when it
contains a comma, kept whole otherwise. -/
def aliasStep (it : Line) : List Line :=
  if itemNeedsSplit it then splitAliasItem it else [it]

/-- A string free of every character the sanitizer eliminates: asterisk,
colon, question mark, angle brackets, double quote, vertical bar,
backslash, slash. -/
def noBanned (v : Line) : Bool :=
  v.all (fun c => !(c = '*' || c = ':' || c = '?' || c = '<' || c = '>'
    || c = '"' || c = '|' || c = '\\' || c = '/'))

/-- Database cleanliness: every stored value is free of the characters
the sanitizer eliminates. -/
def cleanDB (db : DB) : Prop :=
  ∀ k v, dbGet db k = some v → noBanned v = true

/-- The line at index k is recognized by the scanner's backward walk as
a sidecar-property line to pass over. -/
def sidecarAt (lines : List Line) (k : Nat) : Bool :=
  let p := pyStrip (lines.getD k [])
  sHlPage.isPrefixOf p || sLsType.isPrefixOf p || sHlColor.isPrefixOf p

/-- The header converter's property-line test: the stripped line contains
the double-colon separator and does not begin with a list marker. -/
def isHeaderPropLine (l : Line) : Bool :=
  containsSub sepCC (pyStrip l) && !(sDashSpace.isPrefixOf (pyStrip l))

theorem matchRef_cons_form (id rest : Line) (h36 : id.length = 36)
    (hall : id.all isHexOrDash = true) :
    matchRef ('(' :: '(' :: (id ++ (')' :: ')' :: rest))) = some (id, rest) := by
  simp only [matchRef]
  rw [List.take_left' h36, List.drop_left' h36]
  simp [h36, hall]

theorem matchRef_rest_len (l id rest : Line) (h : matchRef l = some (id, rest)) :
    rest.length < l.length := by
  rw [matchRef.eq_def] at h
  split at h
  · rename_i r
    dsimp only at h
    split at h
    · split at h
      · rename_i rest2 heq
        injection h with h
        injection h with h1 h2
        subst h2
        have hlen : (r.take 36).length + (r.drop 36).length = r.length := by
          rw [← List.length_append, List.take_append_drop]
        rw [heq] at hlen
        simp only [List.length_cons] at hlen ⊢
        omega
      · exact absurd h (by simp)
    · exact absurd h (by simp)
  · exact absurd h (by simp)

theorem substRefsAux_congr (db : DB) :
    ∀ f₁ f₂ l, l.length ≤ f₁ → l.length ≤ f₂ →
      substRefsAux db f₁ l = substRefsAux db f₂ l := by
  intro f₁
  induction f₁ with
  | zero =>
    intro f₂ l h1 _h2
    have : l = [] := by
      cases l with
      | nil => rfl
      | cons c cs => simp at h1
    subst this
    cases f₂ <;> rfl
  | succ f ih =>
    intro f₂ l h1 h2
    cases l with
    | nil => cases f₂ <;> rfl
    | cons c cs =>
      cases f₂ with
      | zero => simp at h2
      | succ f2 =>
        simp only [substRefsAux]
        cases hm : matchRef (c :: cs) with
        | some p =>
          obtain ⟨id, rest⟩ := p
          have hlt := matchRef_rest_len _ _ _ hm
          simp only [List.length_cons] at hlt h1 h2
          dsimp only
          rw [ih f2 rest (by omega) (by omega)]
        | none =>
          simp only [List.length_cons] at h1 h2
          dsimp only
          rw [ih f2 cs (by omega) (by omega)]

/-- C1, amended. The rewriter's reference substitution on a line
beginning with an embedded-reference token whose identifier is absent
from the database rewrites the token to the bracketed form enclosing the
original token (it is not left unchanged); the rest of the line is
processed recursively. -/
theorem C1_amended_thm (db : DB) (id rest : Line) (h36 : id.length = 36)
    (hall : id.all isHexOrDash = true) (habs : dbGet db id = none) :
    substRefs db (refTok id ++ rest)
      = '[' :: '[' :: refTok id ++ ']' :: ']' :: substRefs db rest := by
  have hsh : refTok id ++ rest = '(' :: '(' :: (id ++ (')' :: ')' :: rest)) := by
    simp [refTok]
  have hlen : (id ++ (')' :: ')' :: rest)).length = 38 + rest.length := by
    simp [h36]
    omega
  rw [show substRefs db (refTok id ++ rest)
        = substRefsAux db (Nat.succ (Nat.succ (38 + rest.length)))
            ('(' :: '(' :: (id ++ (')' :: ')' :: rest))) from by
    rw [substRefs, hsh]
    simp only [List.length_cons, hlen]]
  simp only [substRefsAux, matchRef_cons_form id rest h36 hall, habs, Option.getD_none]
  rw [substRefsAux_congr db (Nat.succ (38 + rest.length)) rest.length rest (by omega) (by omega)]
  rfl

/-- C1, counterexample. A file consisting of one embedded-reference
token whose identifier is absent from the (empty) database is not left
unchanged by the rewriter pass: the token is rewritten into a bracketed
form wrapping the original token. -/
theorem C1_counterexample :
    phase_two_process_and_write [] [fileC1] ≠ [fileC1] ∧
      phase_two_process_and_write [] [fileC1]
        = [{ content := ["[[((22222222-2222-2222-2222-222222222222))]]".data],
             readFails := false }] := by
  constructor
  · decide
  · decide

/-- C1, witness for the amended theorem at a concrete identifier. -/
theorem C1_amended_witness :
    substRefs [] (refTok uuidC2) = '[' :: '[' :: refTok uuidC2 ++ [']', ']'] := by
  have h := C1_amended_thm [] uuidC2 [] (by decide) (by decide) rfl
  simpa using h

/-- C2, counterexample. On the exact scenario vault, the full run does
not produce the bracketed links carrying the page-5 suffix that the
claim describes. -/
theorem C2_counterexample :
    migrate [fileDefC2, fileRefC2]
      ≠ [{ content := ["- [[Some fact page-5]]".data], readFails := false },
         { content := ["[[Some fact page-5]]".data], readFails := false }] := by
  decide

/-- C2, amended. On the scenario vault the defining file's content line
becomes the bracketed link without a page suffix (the hl-page line
follows the id line, and the scanner captures page values only from
lines preceding the id declaration), the id and hl-page lines are
removed, and the referencing file's token becomes the same bracketed
link. -/
theorem C2_amended_thm :
    migrate [fileDefC2, fileRefC2]
      = [{ content := ["- [[Some fact]]".data], readFails := false },
         { content := ["[[Some fact]]".data], readFails := false }] := by
  decide

/-- C3, counterexample. In a file whose id declaration is preceded by a
blank line which is itself preceded by a content line, the scanner
chooses the blank line: the stored database entry is the empty string,
not the text of the nearest non-blank line. -/
theorem C3_counterexample :
    dbGet (phase_one_build_db [fileC3]) uuidC3 = some [] ∧
      dbGet (phase_one_build_db [fileC3]) uuidC3 ≠ some "Fact".data := by
  decide

theorem bool_ne_true {b : Bool} (h : b = false) : ¬(b = true) := by
  intro hc
  rw [h] at hc
  exact Bool.false_ne_true hc

theorem walkBack_fst (lines : List Line) :
    ∀ i page, Option.map Prod.fst (walkBack lines i page)
      = List.find? (fun k => !(sidecarAt lines k)) (List.range i).reverse := by
  intro i
  induction i with
  | zero => intro page; rfl
  | succ j ih =>
    intro page
    rw [List.range_succ, List.reverse_append, List.reverse_singleton, List.singleton_append]
    simp only [walkBack]
    by_cases h1 : sHlPage.isPrefixOf (pyStrip (lines.getD j [])) = true
    · have hs : sidecarAt lines j = true := by
        simp only [sidecarAt, h1, Bool.true_or]
      rw [if_pos h1, ih, List.find?_cons_of_neg _ (by simp [hs])]
    · rw [Bool.not_eq_true] at h1
      by_cases h2 : (sLsType.isPrefixOf (pyStrip (lines.getD j []))
          || sHlColor.isPrefixOf (pyStrip (lines.getD j []))) = true
      · have hs : sidecarAt lines j = true := by
          simp only [sidecarAt, h1, Bool.false_or, h2]
        rw [if_neg (bool_ne_true h1), if_pos h2, ih, List.find?_cons_of_neg _ (by simp [hs])]
      · rw [Bool.not_eq_true] at h2
        have hs : sidecarAt lines j = false := by
          simp only [sidecarAt, h1, Bool.false_or, h2]
        rw [if_neg (bool_ne_true h1), if_neg (bool_ne_true h2),
          List.find?_cons_of_pos _ (by simp [hs])]
        rfl

/-- C3, amended. The scanner's backward walk selects the nearest
preceding line that is not a recognized sidecar-property line; blank
lines are not excluded and can be selected as the content line. When
every preceding line is a sidecar line (or there is none), the walk
finds nothing and the scanner stores no entry for that identifier
declaration. -/
theorem C3_amended_thm (lines : List Line) (i : Nat) (db : DB) :
    Option.map Prod.fst (walkBack lines i none)
        = List.find? (fun k => !(sidecarAt lines k)) (List.range i).reverse ∧
      (walkBack lines i none = none → scanLine db lines i = db) := by
  refine ⟨walkBack_fst lines i none, fun h => ?_⟩
  cases hu : uuidSearch (lines.getD i []) with
  | none => unfold scanLine; rw [hu]
  | some uuid => unfold scanLine; rw [hu, h]

def linesC3w : List Line :=
  ["ls-type:: x".data, "id:: 33333333-3333-3333-3333-333333333333".data]

/-- C3, witness: a declaration preceded only by a sidecar line stores
nothing. -/
theorem C3_amended_witness : scanLine [] linesC3w 1 = [] :=
  (C3_amended_thm linesC3w 1 []).2 (by decide)

/-- C4, counterexample. Applying the listed substitutions with the
single-asterisk rule before the double-asterisk rule differs from the
source order on the input of two asterisks, so the substitution list is
not order-independent. -/
theorem C4_counterexample :
    applySubs subsListSwap ['*', '*'] ≠ applySubs subsListSrc ['*', '*'] ∧
      applySubs subsListSrc ['*', '*'] = sanitize_text_for_linking ['*', '*'] := by
  decide

theorem pyReplaceAux_single (a b : Char) :
    ∀ f l, l.length ≤ f →
      pyReplaceAux [a] [b] f l = l.map (fun x => if x = a then b else x) := by
  intro f
  induction f with
  | zero =>
    intro l h
    cases l with
    | nil => rfl
    | cons c cs => simp at h
  | succ f ih =>
    intro l h
    cases l with
    | nil => rfl
    | cons c cs =>
      simp only [List.length_cons] at h
      simp only [pyReplaceAux, List.map_cons]
      by_cases hc : c = a
      · subst hc
        rw [if_pos (by simp [List.isPrefixOf])]
        simp only [List.length_cons, List.length_nil, Nat.sub_self, List.drop_zero]
        rw [ih cs (by omega)]
        simp
      · rw [if_neg (by simp [List.isPrefixOf, Ne.symm hc])]
        rw [ih cs (by omega)]
        simp [hc]

theorem pyReplace_single (a b : Char) (l : Line) :
    pyReplace [a] [b] l = l.map (fun x => if x = a then b else x) :=
  pyReplaceAux_single a b l.length l (Nat.le_refl _)

theorem pyReplace_single_comm (a b c d : Char) (hac : a ≠ c) (hbc : b ≠ c) (hda : d ≠ a)
    (z : Line) :
    pyReplace [c] [d] (pyReplace [a] [b] z) = pyReplace [a] [b] (pyReplace [c] [d] z) := by
  simp only [pyReplace_single, List.map_map]
  congr 1
  funext x
  simp only [Function.comp_apply]
  by_cases h1 : x = a
  · subst h1
    simp [hac, hbc]
  · by_cases h2 : x = c
    · subst h2
      simp [h1, hda]
    · simp [h1, h2]

/-- C4, amended. The sanitizer applies its substitutions in a fixed
order and the two asterisk rules must keep that order since their
patterns overlap; the remaining eight single-character substitutions are
order-independent among themselves: applied after the asterisk rules in
any order they produce exactly the sanitizer's output. -/
theorem C4_amended_thm (l : List (Line × Line)) (hperm : List.Perm l subsListSingles)
    (s : Line) :
    applySubs l (pyReplace ['*'] ['★'] (pyReplace ['*', '*'] ['★'] s))
      = sanitize_text_for_linking s := by
  have hmem : ∀ x ∈ l, x ∈ subsListSingles := fun x hx => hperm.mem_iff.mp hx
  have hcomm : ∀ x ∈ l, ∀ y ∈ l, ∀ z : Line,
      (fun acc pr => pyReplace pr.1 pr.2 acc) ((fun acc pr => pyReplace pr.1 pr.2 acc) z x) y
        = (fun acc pr => pyReplace pr.1 pr.2 acc)
            ((fun acc pr => pyReplace pr.1 pr.2 acc) z y) x := by
    intro x hx y hy z
    have hx' := hmem x hx
    have hy' := hmem y hy
    simp only [subsListSingles, List.mem_cons, List.not_mem_nil, or_false] at hx' hy'
    dsimp only
    rcases hx' with rfl | rfl | rfl | rfl | rfl | rfl | rfl | rfl <;>
      rcases hy' with rfl | rfl | rfl | rfl | rfl | rfl | rfl | rfl <;>
      first
        | exact pyReplace_single_comm _ _ _ _ (by decide) (by decide) (by decide) z
        | rfl
  unfold applySubs
  rw [hperm.foldl_eq' hcomm]
  simp only [subsListSingles, List.foldl_cons, List.foldl_nil]
  unfold sanitize_text_for_linking
  rfl

/-- C4, witness: the reversed order of the eight single-character
substitutions agrees with the sanitizer on a concrete string. -/
theorem C4_amended_witness :
    applySubs subsListSingles.reverse
        (pyReplace ['*'] ['★'] (pyReplace ['*', '*'] ['★'] "a:b/c*d".data))
      = sanitize_text_for_linking "a:b/c*d".data :=
  C4_amended_thm subsListSingles.reverse (by decide) "a:b/c*d".data

/-- C5. When line 0 of a file is not a property line, the header
converter returns the input unchanged with count zero. -/
theorem C5_thm (l : Line) (rest : List Line) (h : isHeaderPropLine l = false) :
    convert_logseq_properties_to_yaml (l :: rest) = (l :: rest, 0) := by
  have h' : (containsSub sepCC (pyStrip l) && !(sDashSpace.isPrefixOf (pyStrip l))) = false := h
  simp [convert_logseq_properties_to_yaml, convLoop, h']

/-- C5, witness at a concrete non-property first line. -/
theorem C5_witness :
    convert_logseq_properties_to_yaml ["- hello".data] = (["- hello".data], 0) :=
  C5_thm "- hello".data [] (by decide)

/-- C6. The scenario file with two leading property lines, a blank line
and a body line converts to the fenced header with one quoted item for
the title key and two quoted items for the tags key, followed by the
unconsumed remainder of the file. -/
theorem C6_thm :
    convert_logseq_properties_to_yaml
        ["title:: Foo".data, "tags:: a, b".data, [], "- body".data]
      = (["---".data, "title:".data, "  - \"Foo\"".data, "tags:".data,
          "  - \"a\"".data, "  - \"b\"".data, "---".data, [], "- body".data], 7) := by
  decide

/-- C7, counterexample. An alias item containing both a vertical bar
and a comma is split at the vertical bar as well, not exactly at its
commas as the claim states. -/
theorem C7_counterexample :
    processAliases ["a|b,c".data] = (["a".data, "b".data, "c".data], true) ∧
      processAliases ["a|b,c".data] ≠ (["a|b".data, "c".data], true) := by
  decide

/-- C7, amended. Every list item containing a comma (either script) is
split at fullwidth commas, vertical bars and commas into trimmed
nonempty pieces, order preserved; items without a comma pass through
as-is; and the file is rewritten exactly when some item contained a
comma, being left unmodified otherwise. -/
theorem C7_amended_thm (items : List Line) :
    processAliases items = ((items.map aliasStep).flatten, items.any itemNeedsSplit) ∧
      processMarkdownAliases (some items)
        = if items.any itemNeedsSplit then some ((items.map aliasStep).flatten) else none := by
  have h1 : processAliases items = ((items.map aliasStep).flatten, items.any itemNeedsSplit) := by
    induction items with
    | nil => rfl
    | cons it rest ih =>
      simp only [processAliases, ih, List.map_cons, List.flatten_cons, List.any_cons, aliasStep]
      cases h : itemNeedsSplit it <;> simp [h]
  refine ⟨h1, ?_⟩
  simp only [processMarkdownAliases, h1]

theorem splitOnPred_pieces (p : Char → Bool) :
    ∀ l piece, piece ∈ splitOnPred p l → ∀ c ∈ piece, p c = false := by
  intro l
  induction l with
  | nil =>
    intro piece h c hc
    simp only [splitOnPred, List.mem_singleton] at h
    subst h
    simp at hc
  | cons x xs ih =>
    intro piece h c hc
    simp only [splitOnPred] at h
    by_cases hx : p x = true
    · rw [if_pos hx] at h
      rcases List.mem_cons.mp h with h0 | h1
      · subst h0; simp at hc
      · exact ih piece h1 c hc
    · rw [Bool.not_eq_true] at hx
      rw [if_neg (bool_ne_true hx)] at h
      cases hsp : splitOnPred p xs with
      | nil =>
        rw [hsp] at h
        simp only [List.mem_singleton] at h
        subst h
        rcases List.mem_singleton.mp hc with rfl
        exact hx
      | cons q qs =>
        rw [hsp] at h
        rcases List.mem_cons.mp h with h0 | h1
        · subst h0
          rcases List.mem_cons.mp hc with rfl | hcq
          · exact hx
          · exact ih q (by rw [hsp]; exact List.mem_cons_self q qs) c hcq
        · exact ih piece (by rw [hsp]; exact List.mem_cons_of_mem q h1) c hc

theorem containsSub_single_false (a : Char) :
    ∀ l : Line, (∀ c ∈ l, c ≠ a) → containsSub [a] l = false := by
  intro l
  induction l with
  | nil => intro _; rfl
  | cons c cs ih =>
    intro h
    have hca : (a == c) = false := by
      have hne := h c (List.mem_cons_self c cs)
      simp [Ne.symm hne]
    simp only [containsSub, List.isPrefixOf, hca, Bool.false_and, Bool.false_or]
    exact ih (fun x hx => h x (List.mem_cons_of_mem c hx))

theorem pyStrip_subset (l : Line) : ∀ c ∈ pyStrip l, c ∈ l := by
  intro c hc
  unfold pyStrip at hc
  rw [List.mem_reverse] at hc
  have h1 : c ∈ (l.dropWhile isPySpace).reverse :=
    (List.dropWhile_sublist _).subset hc
  rw [List.mem_reverse] at h1
  exact (List.dropWhile_sublist _).subset h1

theorem splitAliasItem_clean (it : Line) :
    ∀ x ∈ splitAliasItem it, itemNeedsSplit x = false := by
  intro x hx
  unfold splitAliasItem at hx
  rcases List.mem_filter.mp hx with ⟨hmem, _⟩
  rcases List.mem_map.mp hmem with ⟨q, hq, rfl⟩
  have hnc : ∀ c ∈ pyStrip q, c ≠ '，' ∧ c ≠ ',' := by
    intro c hc
    have hsep := splitOnPred_pieces isAliasSep it q hq c (pyStrip_subset q c hc)
    simp only [isAliasSep, Bool.or_eq_false_iff, decide_eq_false_iff_not] at hsep
    exact ⟨hsep.1.1, hsep.2⟩
  unfold itemNeedsSplit
  rw [containsSub_single_false _ _ (fun c hc => (hnc c hc).1),
    containsSub_single_false _ _ (fun c hc => (hnc c hc).2)]
  rfl

theorem processAliases_no_split (l : List Line) (h : ∀ it ∈ l, itemNeedsSplit it = false) :
    processAliases l = (l, false) := by
  induction l with
  | nil => rfl
  | cons it rest ih =>
    have hit := h it (List.mem_cons_self it rest)
    simp [processAliases, ih (fun x hx => h x (List.mem_cons_of_mem it hx)), hit]

theorem processAliases_result_clean (items : List Line) :
    ∀ x ∈ (processAliases items).1, itemNeedsSplit x = false := by
  induction items with
  | nil => intro x hx; simp [processAliases] at hx
  | cons it rest ih =>
    intro x hx
    cases h : itemNeedsSplit it with
    | true =>
      simp only [processAliases, h, if_true] at hx
      rcases List.mem_append.mp hx with h1 | h2
      · exact splitAliasItem_clean it x h1
      · exact ih x h2
    | false =>
      simp only [processAliases, h, Bool.false_eq_true, if_false] at hx
      rcases List.mem_cons.mp hx with rfl | h2
      · exact h
      · exact ih x h2

/-- C8. The alias normalizer is idempotent: after one run on a file, a
second run reports no modification (it returns the unmodified outcome)
and leaves the file's aliases exactly as the first run left them. -/
theorem C8_thm (md : Option (List Line)) :
    processMarkdownAliases (aliasFileAfter md) = none ∧
      aliasFileAfter (aliasFileAfter md) = aliasFileAfter md := by
  have h1 : processMarkdownAliases (aliasFileAfter md) = none := by
    cases md with
    | none => rfl
    | some items =>
      have hres := processAliases_result_clean items
      cases hf : (processAliases items).2 with
      | true =>
        have hafter : aliasFileAfter (some items) = some (processAliases items).1 := by
          simp [aliasFileAfter, processMarkdownAliases, hf]
        rw [hafter]
        have hclean := processAliases_no_split (processAliases items).1 hres
        simp [processMarkdownAliases, hclean]
      | false =>
        have hafter : aliasFileAfter (some items) = some items := by
          simp [aliasFileAfter, processMarkdownAliases, hf]
        rw [hafter]
        simp [processMarkdownAliases, hf]
  refine ⟨h1, ?_⟩
  conv_lhs => rw [aliasFileAfter.eq_def]
  rw [h1]

/-- C9. A per-file read failure in the scanner or the rewriter is
caught: the remaining files are still processed exactly as they would
be, the failing file contributes nothing to the database, and in the
rewriter the failing file's content is left unchanged (the read comes
before the write in the per-file unit). -/
theorem C9_thm (db : DB) (pre post : List MFile) (f : MFile) (h : f.readFails = true) :
    phaseOneAux db (pre ++ f :: post) = phaseOneAux db (pre ++ post) ∧
      phase_two_process_and_write db (pre ++ f :: post)
        = phase_two_process_and_write db pre ++ f :: phase_two_process_and_write db post := by
  constructor
  · unfold phaseOneAux
    rw [List.foldl_append, List.foldl_append, List.foldl_cons]
    have hskip : scanMFile (List.foldl scanMFile db pre) f = List.foldl scanMFile db pre := by
      simp [scanMFile, h]
    rw [hskip]
  · unfold phase_two_process_and_write
    rw [List.map_append, List.map_cons]
    have hskip : phaseTwoFile db f = f := by simp [phaseTwoFile, h]
    rw [hskip]

def fileBad : MFile := { content := ["x".data], readFails := true }

/-- C9, witness: a failing file between two phases' files is skipped and
left unchanged while the other file is still processed. -/
theorem C9_witness :
    phaseOneAux [] [fileBad, fileC1] = phaseOneAux [] [fileC1] ∧
      phase_two_process_and_write [] [fileBad, fileC1]
        = phase_two_process_and_write [] []
            ++ fileBad :: phase_two_process_and_write [] [fileC1] :=
  C9_thm [] [] [fileC1] fileBad rfl

theorem mem_map_subst {a d : Char} {l : Line} {x : Char}
    (h : x ∈ l.map (fun y => if y = a then d else y)) : x = d ∨ (x ∈ l ∧ x ≠ a) := by
  rcases List.mem_map.mp h with ⟨y, hy, he⟩
  by_cases hya : y = a
  · subst hya
    rw [if_pos rfl] at he
    left
    exact he.symm
  · rw [if_neg hya] at he
    right
    rw [← he]
    exact ⟨hy, hya⟩

theorem sanitize_clean (s : Line) : noBanned (sanitize_text_for_linking s) = true := by
  rw [noBanned, List.all_eq_true]
  intro c hc
  unfold sanitize_text_for_linking at hc
  simp only [pyReplace_single] at hc
  rcases mem_map_subst hc with rfl | ⟨hc, h9⟩
  · decide
  rcases mem_map_subst hc with rfl | ⟨hc, h8⟩
  · decide
  rcases mem_map_subst hc with rfl | ⟨hc, h7⟩
  · decide
  rcases mem_map_subst hc with rfl | ⟨hc, h6⟩
  · decide
  rcases mem_map_subst hc with rfl | ⟨hc, h5⟩
  · decide
  rcases mem_map_subst hc with rfl | ⟨hc, h4⟩
  · decide
  rcases mem_map_subst hc with rfl | ⟨hc, h3⟩
  · decide
  rcases mem_map_subst hc with rfl | ⟨hc, h2⟩
  · decide
  rcases mem_map_subst hc with rfl | ⟨hc, h1⟩
  · decide
  simp [h1, h2, h3, h4, h5, h6, h7, h8, h9]

theorem dbGet_upsert (k v key : Line) :
    ∀ db : DB, dbGet (upsert k v db) key = if k = key then some v else dbGet db key := by
  intro db
  induction db with
  | nil => rfl
  | cons kv rest ih =>
    obtain ⟨k0, v0⟩ := kv
    by_cases h0 : k0 = k
    · subst h0
      simp only [upsert, if_pos rfl, dbGet]
      by_cases hk : k0 = key <;> simp [hk]
    · simp only [upsert, if_neg h0, dbGet]
      by_cases hk0 : k0 = key
      · subst hk0
        have : ¬(k = k0) := fun hkk => h0 hkk.symm
        simp [this]
      · simp [hk0, ih]

theorem upsert_clean {db : DB} {k v : Line} (hdb : cleanDB db) (hv : noBanned v = true) :
    cleanDB (upsert k v db) := by
  intro key u hu
  rw [dbGet_upsert] at hu
  by_cases hk : k = key
  · rw [if_pos hk] at hu
    cases hu
    exact hv
  · rw [if_neg hk] at hu
    exact hdb key u hu

theorem scanLine_clean {db : DB} (lines : List Line) (i : Nat) (hdb : cleanDB db) :
    cleanDB (scanLine db lines i) := by
  intro key u hu
  unfold scanLine at hu
  split at hu
  · exact hdb key u hu
  · split at hu
    · exact hdb key u hu
    · dsimp only at hu
      split at hu <;> split at hu <;>
        first
          | exact hdb key u hu
          | exact upsert_clean hdb (sanitize_clean _) key u hu

theorem foldl_preserve {α β : Type} {P : α → Prop} {g : α → β → α}
    (hstep : ∀ d x, P d → P (g d x)) :
    ∀ l d, P d → P (List.foldl g d l) := by
  intro l
  induction l with
  | nil => intro d h; exact h
  | cons x xs ih => intro d h; exact ih (g d x) (hstep d x h)

/-- C10. Every value stored in the identifier database after the
scanner pass has passed through the sanitizer: it contains none of the
characters asterisk, colon, question mark, angle brackets, double
quote, vertical bar, backslash, slash — the page suffix included, since
sanitization is applied after the suffix is appended. -/
theorem C10_thm (files : List MFile) (k v : Line)
    (h : dbGet (phase_one_build_db files) k = some v) : noBanned v = true := by
  have hclean : cleanDB (phase_one_build_db files) := by
    unfold phase_one_build_db phaseOneAux
    refine foldl_preserve (fun d f hd => ?_) files [] (fun key u hu => ?_)
    · unfold scanMFile
      split
      · exact hd
      · unfold scanFileDB
        exact foldl_preserve (fun d2 i hd2 => scanLine_clean _ i hd2) _ _ hd
    · exact absurd hu (by simp [dbGet])
  exact hclean k v h

def fileC10 : MFile :=
  { content := ["- a*b:c".data, "id:: 33333333-3333-3333-3333-333333333333".data],
    readFails := false }

/-- C10, witness: the entry stored for a content line containing an
asterisk and a colon is the sanitized text, which is clean. -/
theorem C10_witness : noBanned "a★b：c".data = true :=
  C10_thm [fileC10] uuidC3 "a★b：c".data (by decide)

end L2O
